import Mathlib

/-!
Verification of the apq mail-queue parser (`apq.py`).

The Python source is shallowly embedded: every function of the program that
the verified properties touch is translated into an executable Lean
definition.  Python dictionaries with a fixed field set become structures;
a dictionary key that the program only sometimes sets becomes an `Option`
field; an operation that can raise an uncaught Python exception (KeyError,
IndexError, TypeError, ValueError) returns `Option`/`Except`.  The ordered
mapping `OrderedDict` is represented as an association list in insertion
order.  Python strings are handled through `List Char`-based primitives so
that every definition reduces inside the kernel.
-/

namespace Apq

/-! ## String primitives (models of the Python string operations used) -/

/-- Model of Python `str.split()` : tokens separated by runs of whitespace,
never producing empty tokens.  `cur` accumulates the current token in
reverse. -/
def pySplitAux : List Char → List Char → List String
  | cur, [] => if cur = [] then [] else [String.mk cur.reverse]
  | cur, c :: cs =>
    if c.isWhitespace then
      if cur = [] then pySplitAux [] cs
      else String.mk cur.reverse :: pySplitAux [] cs
    else pySplitAux (c :: cur) cs

/-- Python `line.split()`. -/
def pySplit (s : String) : List String := pySplitAux [] s.toList

/-- Python `s[:n]` (character based, as in Python). -/
def strTake (s : String) (n : Nat) : String := String.mk (s.toList.take n)

/-- Python `s.lower()` (the strings involved are ASCII). -/
def strToLower (s : String) : String := String.mk (s.toList.map Char.toLower)

/-- Python `c in s` for a single character. -/
def strContainsChar (s : String) (c : Char) : Bool := s.toList.any (fun x => x = c)

/-- Python `s[:-1]`. -/
def strDropLast (s : String) : String := String.mk s.toList.dropLast

/-- Python `s[-1]`, as an `Option` (IndexError on the empty string). -/
def lastChar? (s : String) : Option Char := s.toList.getLast?

/-- Python `s.strip()`. -/
def pyStrip (s : String) : String :=
  String.mk (((s.toList.dropWhile Char.isWhitespace).reverse.dropWhile Char.isWhitespace).reverse)

/-- Python `s[1:-1]`. -/
def strSlice1m1 (s : String) : String := String.mk (s.toList.drop 1).dropLast

/-- Python `s.replace('\n', ' ')`. -/
def strReplaceNl (s : String) : String :=
  String.mk (s.toList.map (fun c => if c = '\n' then ' ' else c))

/-- Model of Python `s.split(sep)` for a one-character separator: keeps
empty pieces, `"".split(c) = [""]`. -/
def splitCharAux (sep : Char) : List Char → List Char → List String
  | cur, [] => [String.mk cur.reverse]
  | cur, x :: xs =>
    if x = sep then String.mk cur.reverse :: splitCharAux sep [] xs
    else splitCharAux sep (x :: cur) xs

/-- Python `s.split(sep)` for a one-character separator. -/
def splitChar (sep : Char) (s : String) : List String := splitCharAux sep [] s.toList

/-- Model of Python `int(s)` restricted to the all-digit tokens the program
feeds it; anything else raises `ValueError`, rendered as `none`. -/
def pyToNat (s : String) : Option Nat :=
  let cs := s.toList
  if cs ≠ [] ∧ cs.all Char.isDigit then
    some (cs.foldl (fun a c => a * 10 + (c.toNat - '0'.toNat)) 0)
  else none

/-- Python `' '.join(ts)`. -/
def joinSpaces (ts : List String) : String :=
  String.mk (((ts.map String.toList).intersperse [' ']).flatten)

/-- Python truthiness of an optional string (absent or empty is falsy). -/
def pyTruthy : Option String → Bool
  | none => false
  | some s => s ≠ ""

/-! ## Data model

`Recipient` is one recipient group built by `_append_recipients`: the
`reason` key is only set when the pending reason is truthy.  `Msg` is the
per-message dictionary built in `parse_mq`: the `recipients` and `date`
keys only exist after the corresponding assignment, hence `Option`. -/

structure Recipient where
  addresses : List String
  reason : Option String := none
deriving DecidableEq, Repr

structure Msg where
  size : String
  rawdate : String
  sender : String
  status : String
  recipients : Option (List Recipient) := none
  date : Option Int := none
deriving DecidableEq, Repr

/-- Status codes of apq.py. -/
def ST_ACTIVE : String := "active"

def ST_HELD : String := "held"

def ST_DEFER : String := "deferred"

/-- `"Mail queue is empty".lower()`. -/
def MAILQ_EMPTY : String := "mail queue is empty"

/-- The characters accepted as the start of a record header line. -/
def HEX_DIGITS : List Char := "0123456789ABCDEF".toList

/-! ## Parser -/

/-- The parser states `MQ_STATE_HDR` .. `MQ_STATE_DONE` of `parse_mq`. -/
inductive MQState where
  | hdr
  | msgData
  | rcpt
  | reason
  | done
deriving DecidableEq, Repr

/-- Uncaught-exception / `sys.exit` outcomes of a parse, with the offending
line. -/
inductive PErr where
  | unexpectedInput (line : String)
  | expectedDelayReason (line : String)
  | unexpectedState (line : String)
  | expectedRecipient (line : String)
  | unknownInput (line : String)
  | indexError (line : String)
  | typeError (line : String)
deriving DecidableEq, Repr

/-- The mutable locals of `parse_mq`, carried across lines.  `cur` is the
queue id of the dictionary the Python variable `msg` refers to inside
`msgs`; `reason` is deliberately never reset when a new record starts,
exactly as in the source. -/
structure ParseSt where
  state : MQState
  msgs : List (String × Msg)
  cur : Option String
  recipients : List Recipient
  addresses : List String
  reason : Option String
deriving DecidableEq, Repr

/-- `_append_recipients(reason, addresses, recipients)`: appends a group
only when addresses were collected, and sets its `reason` key only when the
pending reason is truthy. -/
def append_recipients (reason : Option String) (addresses : List String)
    (recipients : List Recipient) : List Recipient :=
  if addresses.length > 0 then
    recipients ++ [{ addresses := addresses,
                     reason := if pyTruthy reason then reason else none }]
  else recipients

/-- Status classification of the raw identifier token: trailing `*` is
active, trailing `|` is held, otherwise deferred; the marker is stripped.
Returns `(status, queue_id)`.  The token always comes from `line.split()`
and is never empty; the `none` case is unreachable (Python would raise
IndexError on `""[-1]`). -/
def classifyStatus (tid : String) : String × String :=
  match lastChar? tid with
  | some c =>
    if c = '*' then (ST_ACTIVE, strDropLast tid)
    else if c = '|' then (ST_HELD, strDropLast tid)
    else (ST_DEFER, tid)
  | none => (ST_DEFER, tid)

/-- Field extraction of the record-header branch of `parse_mq`:
`s = line.split()`, `queue_id = s[0]` (marker stripped), `size = s[1]`
(IndexError when fewer than two tokens), `rawdate = ' '.join(s[2:6])`,
`sender = s[-1]`. -/
def parseHeaderLine (line : String) : Except PErr (String × Msg) :=
  match pySplit line with
  | tid :: tsize :: restTok =>
    let s := tid :: tsize :: restTok
    let sc := classifyStatus tid
    .ok (sc.2, { size := tsize,
                 rawdate := joinSpaces ((s.drop 2).take 4),
                 sender := (s.getLast?).getD "",
                 status := sc.1,
                 recipients := none,
                 date := none })
  | _ => .error (.indexError line)

/-- `msg["recipients"] = rs` where `msg` is the dictionary stored in `msgs`
under `qid`. -/
def setRecipients (qid : String) (rs : List Recipient) :
    List (String × Msg) → List (String × Msg)
  | [] => []
  | (k, m) :: rest =>
    if k = qid then (k, { m with recipients := some rs }) :: rest
    else (k, m) :: setRecipients qid rs rest

/-- `msgs[qid] = m` on an ordered dictionary: replaces in place when the
key exists, otherwise appends. -/
def setMsg (qid : String) (m : Msg) :
    List (String × Msg) → List (String × Msg)
  | [] => [(qid, m)]
  | (k, m') :: rest =>
    if k = qid then (k, m) :: rest
    else (k, m') :: setMsg qid m rest

/-- First character is one of `0123456789ABCDEF` (Python
`line[0] in HEX_DIGITS`; the empty line never reaches this test). -/
def isHexStart (line : String) : Bool :=
  match line.toList.head? with
  | some c => HEX_DIGITS.contains c
  | none => false

/-- Result of processing one input line: continue with a new state, stop
successfully returning the collection (empty-queue sentinel), or abort. -/
inductive StepRes where
  | cont (st : ParseSt)
  | halt (msgs : List (String × Msg))
  | fail (e : PErr)
deriving DecidableEq, Repr

/-- One iteration of the `parse_mq` line loop, translated branch by branch
in the source's order.  The hex branch saves `msg["recipients"] =
recipients` without flushing the pending group — exactly as the source
does — and does not reset the pending `reason`. -/
def parseStep (line : String) (st : ParseSt) : StepRes :=
  if st.state = .done then
    .fail (.unexpectedInput line)
  else if line = "" ∨ strTake line 10 = "-Queue ID-" then
    if st.state = .rcpt then
      match st.cur with
      | none => .fail (.typeError line)
      | some qid =>
        .cont { st with
                msgs := setRecipients qid
                  (append_recipients st.reason st.addresses st.recipients) st.msgs,
                recipients := append_recipients st.reason st.addresses st.recipients,
                state := .msgData }
    else .cont st
  else if strToLower line = MAILQ_EMPTY then
    if st.state = .hdr then .halt st.msgs else .fail (.unexpectedInput line)
  else if strTake line 2 = "--" then
    if st.state = .reason ∨ st.state = .msgData then
      .cont { st with state := .done }
    else .fail (.expectedDelayReason line)
  else if isHexStart line then
    if st.state = .rcpt ∧ st.cur = none then .fail (.typeError line)
    else
      match parseHeaderLine line with
      | .error e => .fail e
      | .ok (qid, m) =>
        .cont { state := if m.status = ST_ACTIVE then .rcpt else .reason,
                msgs := setMsg qid m
                  (if st.state = .rcpt then
                     setRecipients (st.cur.getD "") st.recipients st.msgs
                   else st.msgs),
                cur := some qid,
                recipients := [],
                addresses := [],
                reason := st.reason }
  else
    match (line.toList.dropWhile (fun c => c = ' ')).head? with
    | none => .fail (.indexError line)
    | some c =>
      if c = '(' then
        if st.state ≠ .reason ∧ st.state ≠ .rcpt then .fail (.unexpectedState line)
        else
          .cont { st with
                  recipients :=
                    if st.state = .rcpt then
                      append_recipients st.reason st.addresses st.recipients
                    else st.recipients,
                  reason := some (strReplaceNl (strSlice1m1 (pyStrip line))),
                  state := .rcpt, addresses := [] }
      else if strContainsChar line '@' then
        if st.state ≠ .rcpt then .fail (.expectedRecipient line)
        else .cont { st with addresses := st.addresses ++ [pyStrip line] }
      else .fail (.unknownInput line)

/-- The `parse_mq` line loop.  Falling off the end of the input returns the
collection as is (no flush of a pending group, no end-of-input check). -/
def parseLines : List String → ParseSt → Except PErr (List (String × Msg))
  | [], st => .ok st.msgs
  | l :: ls, st =>
    match parseStep l st with
    | .cont st' => parseLines ls st'
    | .halt m => .ok m
    | .fail e => .error e

/-- Initial state of `parse_mq`. -/
def initSt : ParseSt :=
  { state := .hdr, msgs := [], cur := none, recipients := [], addresses := [],
    reason := none }

/-- `parse_mq` on the already-split lines of the captured mailq text. -/
def parse_mq (lines : List String) : Except PErr (List (String × Msg)) :=
  parseLines lines initSt

/-! ## Date normalizer

`parse_mailq_date` builds naive `datetime.datetime` values.  They are
modelled as plain records; the range validation the Python constructor
performs is not modelled (all values the program builds from well-formed
listings are in range), and comparison of two datetimes is the
lexicographic comparison of their fields, which on valid datetimes agrees
with Python.  `timedelta.total_seconds()` against the Unix epoch becomes an
exact integer count of seconds computed through the proleptic Gregorian
calendar. -/

structure PyDatetime where
  year : Int
  month : Nat
  day : Nat
  hour : Nat
  minute : Nat
  second : Nat
deriving DecidableEq, Repr

/-- `MONTH_MAP`; a missing key raises `KeyError`, rendered as `none`. -/
def MONTH_MAP : String → Option Nat
  | "Jan" => some 1
  | "Feb" => some 2
  | "Mar" => some 3
  | "Apr" => some 4
  | "May" => some 5
  | "Jun" => some 6
  | "Jul" => some 7
  | "Aug" => some 8
  | "Sep" => some 9
  | "Oct" => some 10
  | "Nov" => some 11
  | "Dec" => some 12
  | _ => none

/-- Days from the Unix epoch (1970-01-01) to the given proleptic Gregorian
date (Howard Hinnant's `days_from_civil`). -/
def daysFromCivil (y : Int) (m d : Nat) : Int :=
  let y' : Int := if m ≤ 2 then y - 1 else y
  let era : Int := Int.fdiv y' 400
  let yoe : Int := y' - era * 400
  let mp : Int := (Int.ofNat m + 9) % 12
  let doy : Int := (153 * mp + 2) / 5 + Int.ofNat d - 1
  let doe : Int := yoe * 365 + yoe / 4 - yoe / 100 + doy
  era * 146097 + doe - 719468

/-- `float((d - UNIX_EPOCH).total_seconds())` for a datetime `d`: seconds
since the Unix epoch (the value is always integral). -/
def epochSeconds (dt : PyDatetime) : Int :=
  daysFromCivil dt.year dt.month dt.day * 86400
    + Int.ofNat dt.hour * 3600 + Int.ofNat dt.minute * 60 + Int.ofNat dt.second

/-- `UNIX_EPOCH = datetime.datetime(1970, 1, 1)`. -/
def UNIX_EPOCH : PyDatetime := ⟨1970, 1, 1, 0, 0, 0⟩

/-- Python `d > now` on datetimes: lexicographic field comparison. -/
def dtGt (a b : PyDatetime) : Bool :=
  if a.year ≠ b.year then decide (b.year < a.year)
  else if a.month ≠ b.month then decide (b.month < a.month)
  else if a.day ≠ b.day then decide (b.day < a.day)
  else if a.hour ≠ b.hour then decide (b.hour < a.hour)
  else if a.minute ≠ b.minute then decide (b.minute < a.minute)
  else decide (b.second < a.second)

/-- `parse_mailq_date(d, now)`: unpack the raw four-token timestamp
(`_, mon_str, day, time_str = d.split()`, discarding the weekday), build a
candidate with `now`'s year, and when the candidate is strictly after `now`
rebuild it with `now.year - 1`; return epoch seconds.  Unpacking a token
count other than four or three time fields raises `ValueError`, an unknown
month `KeyError` — all rendered as `none`. -/
def parse_mailq_date (d : String) (now : PyDatetime) : Option Int :=
  match pySplit d with
  | [_, mon_str, day, time_str] =>
    match splitChar ':' time_str with
    | [hh, mm, ss] => do
      let mon ← MONTH_MAP mon_str
      let dayN ← pyToNat day
      let h ← pyToNat hh
      let mi ← pyToNat mm
      let sec ← pyToNat ss
      let cand : PyDatetime := ⟨now.year, mon, dayN, h, mi, sec⟩
      let res : PyDatetime :=
        if dtGt cand now then ⟨now.year - 1, mon, dayN, h, mi, sec⟩ else cand
      some (epochSeconds res)
    | _ => none
  | _ => none

/-! ## Output transformer (`convert_to_postfix31`) -/

structure FlatRecipient where
  delay_reason : String
  address : String
deriving DecidableEq, Repr

structure Postfix31Msg where
  queue_name : String
  queue_id : String
  arrival_time : Int
  message_size : String
  sender : String
  recipients : List FlatRecipient
deriving DecidableEq, Repr

/-- The recipient loop of `convert_to_postfix31`: for each group, read
`recipient["reason"]` (KeyError when the group has no reason key) and emit
one `{delay_reason, address}` pair per address. -/
def flattenGroups : List Recipient → Option (List FlatRecipient)
  | [] => some []
  | g :: gs =>
    match g.reason with
    | none => none
    | some r =>
      (flattenGroups gs).map
        (fun rest => g.addresses.map (fun a => ⟨r, a⟩) ++ rest)

/-- `convert_to_postfix31(queue_id, msg)` with the call
`datetime.datetime.now()` passed in as `now`.  `msg["recipients"]` raises
KeyError when the parser never assigned the key. -/
def convert_to_postfix31 (queue_id : String) (msg : Msg) (now : PyDatetime) :
    Option Postfix31Msg := do
  let arrival ← parse_mailq_date msg.rawdate now
  let gs ← msg.recipients
  let recips ← flattenGroups gs
  some { queue_name := msg.status, queue_id := queue_id, arrival_time := arrival,
         message_size := msg.size, sender := msg.sender, recipients := recips }

/-! ## Filters -/

/-- `listStartsWith hay pat`: `pat` is a leading run of `hay`. -/
def listStartsWith : List Char → List Char → Bool
  | _, [] => true
  | [], _ :: _ => false
  | a :: as, b :: bs => a = b && listStartsWith as bs

/-- `pat` occurs contiguously somewhere inside `hay`. -/
def listContainsSub : List Char → List Char → Bool
  | [], pat => pat.isEmpty
  | hay@(_ :: t), pat => listStartsWith hay pat || listContainsSub t pat

/-- Model of `re.search(re.compile(pattern, re.IGNORECASE), s)` for the
pattern strings considered here (no regex metacharacters): a
case-insensitive substring search — anywhere in the string, not a full
match. -/
def reSearchCI (pattern s : String) : Bool :=
  listContainsSub (strToLower s).toList (strToLower pattern).toList

/-- `filter_on_msg_key(msgs, pattern, key)`: keep entries where the key
exists and its value matches.  The key is passed as an accessor
(the program uses it with `'sender'`). -/
def filter_on_msg_key (msgs : List (String × Msg)) (pattern : String)
    (key : Msg → Option String) : List (String × Msg) :=
  msgs.filter (fun p =>
    match key p.2 with
    | some v => reSearchCI pattern v
    | none => false)

/-- The inner loop of `filter_on_msg_reason` over one record's groups:
`recipient["reason"]` raises KeyError on a group without the key;
otherwise the record is kept when some truthy reason matches. -/
def reasonScan (pattern : String) : List Recipient → Option Bool
  | [] => some false
  | g :: gs =>
    match g.reason with
    | none => none
    | some r =>
      (reasonScan pattern gs).map
        (fun b => (decide (r ≠ "") && reSearchCI pattern r) || b)

/-- `filter_on_msg_reason(msgs, pattern)`: skip active records, keep a
record when one of its groups has a truthy matching reason;
`msg["recipients"]` raises KeyError when the key is absent. -/
def filter_on_msg_reason : List (String × Msg) → String → Option (List (String × Msg))
  | [], _ => some []
  | (qid, m) :: rest, pattern =>
    if m.status = ST_ACTIVE then filter_on_msg_reason rest pattern
    else
      match m.recipients with
      | none => none
      | some gs =>
        match reasonScan pattern gs with
        | none => none
        | some keep =>
          (filter_on_msg_reason rest pattern).map
            (fun r => if keep then (qid, m) :: r else r)

/-- `filter_on_msg_recipient(msgs, pattern)`: keep a record when any
address of any group matches; `msg["recipients"]` raises KeyError when the
key is absent. -/
def filter_on_msg_recipient : List (String × Msg) → String → Option (List (String × Msg))
  | [], _ => some []
  | (qid, m) :: rest, pattern =>
    match m.recipients with
    | none => none
    | some gs =>
      let keep := gs.any (fun g => g.addresses.any (fun a => reSearchCI pattern a))
      (filter_on_msg_recipient rest pattern).map
        (fun r => if keep then (qid, m) :: r else r)

/-- The duration parsing of `filter_on_msg_age`: an integer with suffix
`s`/`m`/`h`/`d`.  Any other last character leaves `age_secs` unassigned
(`NameError`), the empty string raises IndexError — both `none`. -/
def parseAgeSecs (age : String) : Option Int :=
  match lastChar? age with
  | none => none
  | some c =>
    if c = 's' then (pyToNat (strDropLast age)).map (fun n => (n : Int))
    else if c = 'm' then (pyToNat (strDropLast age)).map (fun n => (n : Int) * 60)
    else if c = 'h' then (pyToNat (strDropLast age)).map (fun n => (n : Int) * 60 * 60)
    else if c = 'd' then (pyToNat (strDropLast age)).map (fun n => (n : Int) * 60 * 60 * 24)
    else none

/-- The final comprehension of `filter_on_msg_age`: `data['date']` raises
KeyError when a record has no date. -/
def ageFilterGo (f : Int → Bool) : List (String × Msg) → Option (List (String × Msg))
  | [] => some []
  | (qid, m) :: rest =>
    match m.date with
    | none => none
    | some d =>
      (ageFilterGo f rest).map (fun r => if f d then (qid, m) :: r else r)

/-- `filter_on_msg_age(msgs, condition, age)` with `datetime.datetime.now()`
passed in as `now`; ages are compared in whole seconds.  A condition other
than `minage`/`maxage` fails the `assert`. -/
def filter_on_msg_age (msgs : List (String × Msg)) (condition : String)
    (age : String) (now : PyDatetime) : Option (List (String × Msg)) :=
  if condition = "minage" ∨ condition = "maxage" then
    match parseAgeSecs age with
    | none => none
    | some age_secs =>
      let f : Int → Bool :=
        if condition = "minage" then fun d => decide (age_secs ≤ epochSeconds now - d)
        else fun d => decide (epochSeconds now - d ≤ age_secs)
      ageFilterGo f msgs
  else none

/-- The `exclude_active` comprehension of `main`. -/
def filter_exclude_active (msgs : List (String × Msg)) : List (String × Msg) :=
  msgs.filter (fun p => decide (p.2.status ≠ ST_ACTIVE))

/-- The `only_active` comprehension of `main`. -/
def filter_only_active (msgs : List (String × Msg)) : List (String × Msg) :=
  msgs.filter (fun p => decide (p.2.status = ST_ACTIVE))

/-- `parse_msg_dates(msgs, now)`: resolve each record's raw date; a record
that already carries a date is left out of the result (the source's
`new_msgs` only receives records it just dated). -/
def parse_msg_dates : List (String × Msg) → PyDatetime → Option (List (String × Msg))
  | [], _ => some []
  | (qid, m) :: rest, now =>
    match m.date with
    | some _ => parse_msg_dates rest now
    | none => do
      let d ← parse_mailq_date m.rawdate now
      let r ← parse_msg_dates rest now
      some ((qid, { m with date := some d }) :: r)

/-! ## Command line and main flow

Only the logic relevant to the verified properties is modelled: the
post-`argparse` validation in `parse_args` and the order of the stages in
`main` (validation before parsing before filtering).  Output serialization
and the experimental `--log` enrichment path are I/O and are out of
scope. -/

structure Args where
  count : Bool := false
  reason : Option String := none
  recipient : Option String := none
  sender : Option String := none
  parse_date : Bool := false
  maxage : Option String := none
  minage : Option String := none
  exclude_active : Bool := false
  only_active : Bool := false
  postfix3 : Bool := false
deriving DecidableEq, Repr

/-- How a run terminates abnormally.  The source's validation errors are
written with Python-2 `print >> sys.stderr, ...` syntax: under Python 3
that expression raises an uncaught `TypeError` (builtin `print` does not
support `>>`), terminating the process with status 1 before the intended
message or `sys.exit(1)` is ever reached. -/
inductive AbnormalExit where
  | sysExit (code : Nat)
  | uncaughtTypeError
  | uncaughtException
deriving DecidableEq, Repr

/-- Process exit status of an abnormal termination (an uncaught exception
exits with status 1). -/
def exitCode : AbnormalExit → Nat
  | .sysExit n => n
  | .uncaughtTypeError => 1
  | .uncaughtException => 1

/-- The minage/maxage normalization in `parse_args`: append `s` when the
value ends in a digit; otherwise a last character outside `smhd` triggers
the (broken, see `AbnormalExit`) error report. -/
def normAge (v : Option String) : Except AbnormalExit (Option String) :=
  match v with
  | none => .ok none
  | some a =>
    let lastIsDigit : Bool := match lastChar? a with
      | some c => c.isDigit
      | none => false
    let lastInSMHD : Bool := match lastChar? a with
      | some c => c = 's' || c = 'm' || c = 'h' || c = 'd'
      | none => false
    if pyTruthy (some a) && lastIsDigit then .ok (some (a ++ "s"))
    else if pyTruthy (some a) && !lastInSMHD then .error .uncaughtTypeError
    else .ok (some a)

/-- The validation tail of `parse_args`: normalize both ages, then reject
`--exclude-active` together with `--only-active`. -/
def parse_args_check (args : Args) : Except AbnormalExit Args := do
  let minage ← normAge args.minage
  let maxage ← normAge args.maxage
  if args.exclude_active ∧ args.only_active then
    .error .uncaughtTypeError
  else
    .ok { args with minage := minage, maxage := maxage }

/-- Lift a crashing (`none`) computation into the main flow as an uncaught
exception. -/
def liftOpt : Option α → Except AbnormalExit α
  | some a => .ok a
  | none => .error .uncaughtException

/-- `main()` without the output stage: argument validation, parse, optional
date resolution, then the filter chain in the source's order.  `input` is
the captured mailq listing (already split into lines), `now` the single
reference time. -/
def main (args : Args) (input : List String) (now : PyDatetime) :
    Except AbnormalExit (List (String × Msg)) := do
  let args ← parse_args_check args
  let msgs ← (parse_mq input).mapError (fun _ => AbnormalExit.sysExit 1)
  let msgs ← if args.parse_date ∨ pyTruthy args.minage ∨ pyTruthy args.maxage then
      liftOpt (parse_msg_dates msgs now)
    else .ok msgs
  let msgs ← match args.reason with
    | some pat => liftOpt (filter_on_msg_reason msgs pat)
    | none => .ok msgs
  let msgs := match args.sender with
    | some pat => filter_on_msg_key msgs pat (fun m => some m.sender)
    | none => msgs
  let msgs ← match args.recipient with
    | some pat => liftOpt (filter_on_msg_recipient msgs pat)
    | none => .ok msgs
  let msgs ← match args.minage with
    | some a => if pyTruthy (some a) then liftOpt (filter_on_msg_age msgs "minage" a now) else .ok msgs
    | none => .ok msgs
  let msgs ← match args.maxage with
    | some a => if pyTruthy (some a) then liftOpt (filter_on_msg_age msgs "maxage" a now) else .ok msgs
    | none => .ok msgs
  let msgs := if args.exclude_active then filter_exclude_active msgs
    else if args.only_active then filter_only_active msgs
    else msgs
  .ok msgs

/-! ## Specification-side helper definitions used by the theorems -/

/-- The flattening `convert_to_postfix31` performs when every group carries
a reason: each group contributes one `{delay_reason, address}` pair per
address. -/
def flattenSpec (gs : List Recipient) : List FlatRecipient :=
  (gs.map (fun g => g.addresses.map (fun a => ⟨g.reason.getD "", a⟩))).flatten

/-- One group's contribution to the reason filter: a truthy reason that
matches the pattern. -/
def reasonMatchB (pattern : String) (g : Recipient) : Bool :=
  match g.reason with
  | some r => decide (r ≠ "") && reSearchCI pattern r
  | none => false

/-- A record the reason filter can examine without a KeyError: active (it
is skipped), or recipients present with every group carrying a reason. -/
def recordReasonSafe (m : Msg) : Bool :=
  decide (m.status = ST_ACTIVE) ||
    (match m.recipients with
     | some gs => gs.all (fun g => g.reason.isSome)
     | none => false)

/-- The keep-condition of the reason filter: non-active and some group with
a truthy matching reason. -/
def reasonKeepB (pattern : String) (m : Msg) : Bool :=
  decide (m.status ≠ ST_ACTIVE) &&
    (match m.recipients with
     | some gs => gs.any (reasonMatchB pattern)
     | none => false)

/-- The keep-condition of the recipient filter: some address of some group
matches. -/
def recipKeepB (pattern : String) (m : Msg) : Bool :=
  match m.recipients with
  | some gs => gs.any (fun g => g.addresses.any (fun a => reSearchCI pattern a))
  | none => false

/-- The keys of an ordered collection, in iteration order. -/
def keysOf (l : List (String × Msg)) : List String := l.map Prod.fst

/-- The three legal status values. -/
def statusOK (m : Msg) : Prop :=
  m.status = ST_ACTIVE ∨ m.status = ST_HELD ∨ m.status = ST_DEFER

/-- A line that the parser's branch order classifies as a record header:
not blank or the column banner, not the empty-queue sentinel, not the
footer, and starting with a hex digit. -/
def isHeaderLine (line : String) : Bool :=
  !(decide (line = "" ∨ strTake line 10 = "-Queue ID-"))
    && !(decide (strToLower line = MAILQ_EMPTY))
    && !(decide (strTake line 2 = "--"))
    && isHexStart line

/-- The stripped queue ids of the header lines of the input, in input
order. -/
def headerIds (lines : List String) : List String :=
  lines.filterMap (fun l =>
    if isHeaderLine l then ((pySplit l).head?).map (fun t => (classifyStatus t).2)
    else none)

/-- Keep the first occurrence of every element, given the set of elements
already seen. -/
def firstDedupAux : List String → List String → List String
  | _, [] => []
  | seen, x :: xs =>
    if x ∈ seen then firstDedupAux seen xs
    else x :: firstDedupAux (x :: seen) xs

/-- Keep the first occurrence of every element. -/
def firstDedup (l : List String) : List String := firstDedupAux [] l

/-! ## Lemmas -/

theorem setRecipients_keys (q : String) (rs : List Recipient) :
    ∀ l : List (String × Msg), keysOf (setRecipients q rs l) = keysOf l := by
  intro l
  induction l with
  | nil => rfl
  | cons p rest ih =>
    obtain ⟨k, m⟩ := p
    by_cases hk : k = q <;> simp [setRecipients, hk, keysOf] <;>
      simpa [keysOf] using ih

theorem setMsg_keys (q : String) (m : Msg) :
    ∀ l : List (String × Msg),
      keysOf (setMsg q m l) =
        if q ∈ keysOf l then keysOf l else keysOf l ++ [q] := by
  intro l
  induction l with
  | nil => simp [setMsg, keysOf]
  | cons p rest ih =>
    obtain ⟨k, m'⟩ := p
    simp only [keysOf] at ih ⊢
    by_cases hk : k = q
    · simp [setMsg, hk]
    · have hqk : ¬q = k := fun hh => hk hh.symm
      simp only [setMsg, if_neg hk, List.map_cons, List.mem_cons, hqk, false_or]
      by_cases hmem : q ∈ List.map Prod.fst rest
      · rw [if_pos hmem, ih, if_pos hmem]
      · rw [if_neg hmem, ih, if_neg hmem]
        rfl

theorem setRecipients_status (q : String) (rs : List Recipient) :
    ∀ (l : List (String × Msg)) (p : String × Msg), p ∈ setRecipients q rs l →
      ∃ p' ∈ l, p.2.status = p'.2.status := by
  intro l
  induction l with
  | nil => intro p hp; cases hp
  | cons hd rest ih =>
    obtain ⟨k, m⟩ := hd
    intro p hp
    by_cases hk : k = q
    · simp only [setRecipients, if_pos hk, List.mem_cons] at hp
      rcases hp with rfl | hp
      · exact ⟨(k, m), by simp, rfl⟩
      · exact ⟨p, by simp [hp], rfl⟩
    · simp only [setRecipients, if_neg hk, List.mem_cons] at hp
      rcases hp with rfl | hp
      · exact ⟨(k, m), by simp, rfl⟩
      · obtain ⟨p', hp', hs⟩ := ih p hp
        exact ⟨p', by simp [hp'], hs⟩

theorem setMsg_mem (q : String) (m : Msg) :
    ∀ (l : List (String × Msg)) (p : String × Msg), p ∈ setMsg q m l →
      p.2 = m ∨ p ∈ l := by
  intro l
  induction l with
  | nil =>
    intro p hp
    simp only [setMsg, List.mem_singleton] at hp
    exact .inl (by rw [hp])
  | cons hd rest ih =>
    obtain ⟨k, m'⟩ := hd
    intro p hp
    by_cases hk : k = q
    · simp only [setMsg, if_pos hk, List.mem_cons] at hp
      rcases hp with rfl | hp
      · exact .inl rfl
      · exact .inr (by simp [hp])
    · simp only [setMsg, if_neg hk, List.mem_cons] at hp
      rcases hp with rfl | hp
      · exact .inr (by simp)
      · rcases ih p hp with h | h
        · exact .inl h
        · exact .inr (by simp [h])

theorem classifyStatus_fst (tid : String) :
    (classifyStatus tid).1 = ST_ACTIVE ∨ (classifyStatus tid).1 = ST_HELD
      ∨ (classifyStatus tid).1 = ST_DEFER := by
  unfold classifyStatus
  rcases lastChar? tid with _ | c
  · exact .inr (.inr rfl)
  · by_cases h1 : c = '*'
    · simp [h1]
    · by_cases h2 : c = '|' <;> simp [h1, h2]

theorem parseHeaderLine_ok (line : String) (qid : String) (m : Msg)
    (h : parseHeaderLine line = .ok (qid, m)) :
    ∃ tid tr, pySplit line = tid :: tr
      ∧ qid = (classifyStatus tid).2 ∧ m.status = (classifyStatus tid).1 := by
  unfold parseHeaderLine at h
  split at h
  · rename_i tid tsize restTok heq
    refine ⟨tid, tsize :: restTok, heq, ?_, ?_⟩ <;>
      cases h <;> rfl
  · cases h

theorem headerIds_cons_neg (l : String) (ls : List String)
    (h : isHeaderLine l = false) : headerIds (l :: ls) = headerIds ls := by
  simp [headerIds, List.filterMap_cons, h]

theorem headerIds_cons_pos (l : String) (ls : List String) (tid : String)
    (tr : List String) (h : isHeaderLine l = true)
    (hsplit : pySplit l = tid :: tr) :
    headerIds (l :: ls) = (classifyStatus tid).2 :: headerIds ls := by
  simp [headerIds, List.filterMap_cons, h, hsplit]

theorem parseStep_halt (line : String) (st : ParseSt)
    (msgs : List (String × Msg)) (h : parseStep line st = .halt msgs) :
    msgs = st.msgs ∧ st.state = .hdr := by
  unfold parseStep at h
  split at h
  · simp at h
  split at h
  · split at h
    · split at h
      · simp at h
      · simp at h
    · simp at h
  split at h
  · split at h
    next hhdr =>
      cases h
      exact ⟨rfl, hhdr⟩
    · simp at h
  split at h
  · split at h
    · simp at h
    · simp at h
  split at h
  · split at h
    · simp at h
    · split at h
      · simp at h
      · simp at h
  · split at h
    · simp at h
    · split at h
      · split at h
        · simp at h
        · simp at h
      · split at h
        · split at h
          · simp at h
          · simp at h
        · simp at h

theorem parseStep_cont (line : String) (st st' : ParseSt)
    (h : parseStep line st = .cont st') :
    (st'.state = .hdr → st.state = .hdr ∧ st'.msgs = st.msgs)
    ∧ (∀ p ∈ st'.msgs, statusOK p.2 ∨ ∃ q ∈ st.msgs, p.2.status = q.2.status)
    ∧ ((isHeaderLine line = false ∧ keysOf st'.msgs = keysOf st.msgs)
       ∨ (isHeaderLine line = true ∧ ∃ tid tr, pySplit line = tid :: tr
            ∧ keysOf st'.msgs =
                (if (classifyStatus tid).2 ∈ keysOf st.msgs then keysOf st.msgs
                 else keysOf st.msgs ++ [(classifyStatus tid).2]))) := by
  unfold parseStep at h
  split at h
  · simp at h
  next hdone =>
  split at h
  next hblank =>
    have hhl : isHeaderLine line = false := by
      simp [isHeaderLine, hblank]
    split at h
    next hrcpt =>
      split at h
      · simp at h
      next qid hcur =>
        cases h
        refine ⟨fun hh => by simp at hh, ?_, ?_⟩
        · intro p hp
          obtain ⟨q, hq, hs⟩ := setRecipients_status _ _ _ p hp
          exact .inr ⟨q, hq, hs⟩
        · exact .inl ⟨hhl, setRecipients_keys _ _ _⟩
    next hnrcpt =>
      cases h
      exact ⟨fun hh => ⟨hh, rfl⟩, fun p hp => .inr ⟨p, hp, rfl⟩, .inl ⟨hhl, rfl⟩⟩
  next hnblank =>
  split at h
  · split at h
    · simp at h
    · simp at h
  next hnsent =>
  split at h
  next hfoot =>
    have hhl : isHeaderLine line = false := by
      simp [isHeaderLine, hfoot]
    split at h
    · cases h
      refine ⟨fun hh => by simp at hh, fun p hp => .inr ⟨p, hp, rfl⟩, .inl ⟨hhl, rfl⟩⟩
    · simp at h
  next hnfoot =>
  split at h
  next hhex =>
    have hhl : isHeaderLine line = true := by
      simp [isHeaderLine, hnblank, hnsent, hnfoot, hhex]
    split at h
    · simp at h
    next hnone =>
      split at h
      · simp at h
      next qid m hok =>
        cases h
        obtain ⟨tid, tr, hsplit, hqid, hstat⟩ := parseHeaderLine_ok line qid m hok
        refine ⟨fun hh => ?_, ?_, ?_⟩
        · exfalso
          revert hh
          split <;> simp
        · intro p hp
          rcases setMsg_mem _ _ _ p hp with hm | hp'
          · left
            rw [statusOK, hm, hstat]
            exact classifyStatus_fst tid
          · split at hp'
            · obtain ⟨q, hq, hs⟩ := setRecipients_status _ _ _ p hp'
              exact .inr ⟨q, hq, hs⟩
            · exact .inr ⟨p, hp', rfl⟩
        · right
          refine ⟨hhl, tid, tr, hsplit, ?_⟩
          rw [← hqid]
          show keysOf (setMsg qid m _) = _
          rw [setMsg_keys]
          split
          · rw [setRecipients_keys]
          · rfl
  next hnhex =>
    have hhl : isHeaderLine line = false := by
      have : isHexStart line = false := by
        cases hb : isHexStart line
        · rfl
        · exact absurd hb hnhex
      simp [isHeaderLine, this]
    split at h
    · simp at h
    · split at h
      · split at h
        · simp at h
        · cases h
          exact ⟨fun hh => by simp at hh, fun p hp => .inr ⟨p, hp, rfl⟩,
                 .inl ⟨hhl, rfl⟩⟩
      · split at h
        · split at h
          · simp at h
          · cases h
            exact ⟨fun hh => ⟨hh, rfl⟩, fun p hp => .inr ⟨p, hp, rfl⟩,
                   .inl ⟨hhl, rfl⟩⟩
        · simp at h

theorem firstDedupAux_congr (l : List String) :
    ∀ s₁ s₂ : List String, (∀ x, x ∈ s₁ ↔ x ∈ s₂) →
      firstDedupAux s₁ l = firstDedupAux s₂ l := by
  induction l with
  | nil => intro s₁ s₂ _; rfl
  | cons x xs ih =>
    intro s₁ s₂ hs
    by_cases hx : x ∈ s₁
    · rw [firstDedupAux, firstDedupAux, if_pos hx, if_pos ((hs x).mp hx)]
      exact ih s₁ s₂ hs
    · rw [firstDedupAux, firstDedupAux, if_neg hx,
          if_neg (fun hh => hx ((hs x).mpr hh))]
      refine congrArg _ (ih _ _ fun y => ?_)
      simp only [List.mem_cons]
      exact or_congr (Iff.rfl) (hs y)

theorem parseLines_status (lines : List String) :
    ∀ (st : ParseSt) (out : List (String × Msg)),
      parseLines lines st = .ok out →
      (∀ p ∈ st.msgs, statusOK p.2) → ∀ p ∈ out, statusOK p.2 := by
  induction lines with
  | nil =>
    intro st out h hinv
    simp only [parseLines] at h
    cases h
    exact hinv
  | cons l ls ih =>
    intro st out h hinv
    simp only [parseLines] at h
    cases hstep : parseStep l st with
    | fail e =>
      rw [hstep] at h
      simp at h
    | halt m =>
      rw [hstep] at h
      cases h
      obtain ⟨hm, _⟩ := parseStep_halt l st _ hstep
      rw [hm]
      exact hinv
    | cont st' =>
      rw [hstep] at h
      obtain ⟨_, hstat, _⟩ := parseStep_cont l st st' hstep
      refine ih st' out h fun p hp => ?_
      rcases hstat p hp with hok | ⟨q, hq, hs⟩
      · exact hok
      · rw [statusOK, hs]
        exact hinv q hq

theorem parseLines_keys (lines : List String) :
    ∀ (st : ParseSt) (out : List (String × Msg)),
      parseLines lines st = .ok out →
      (st.state = .hdr → st.msgs = []) →
      ∃ t, keysOf out ++ t
        = keysOf st.msgs ++ firstDedupAux (keysOf st.msgs) (headerIds lines) := by
  induction lines with
  | nil =>
    intro st out h _
    simp only [parseLines] at h
    cases h
    exact ⟨[], by simp [headerIds, firstDedupAux]⟩
  | cons l ls ih =>
    intro st out h hinv
    simp only [parseLines] at h
    cases hstep : parseStep l st with
    | fail e =>
      rw [hstep] at h
      simp at h
    | halt m =>
      rw [hstep] at h
      cases h
      obtain ⟨hm, hhdr⟩ := parseStep_halt l st _ hstep
      refine ⟨firstDedupAux (keysOf st.msgs) (headerIds (l :: ls)), ?_⟩
      rw [hm, hinv hhdr]
    | cont st' =>
      rw [hstep] at h
      obtain ⟨hhdr, _, hkeys⟩ := parseStep_cont l st st' hstep
      have hinv' : st'.state = .hdr → st'.msgs = [] := by
        intro hh
        obtain ⟨h1, h2⟩ := hhdr hh
        rw [h2]
        exact hinv h1
      obtain ⟨t, ht⟩ := ih st' out h hinv'
      rcases hkeys with ⟨hf, hk⟩ | ⟨hf, tid, tr, hsplit, hk⟩
      · rw [headerIds_cons_neg l ls hf]
        rw [hk] at ht
        exact ⟨t, ht⟩
      · rw [headerIds_cons_pos l ls tid tr hf hsplit]
        simp only [firstDedupAux]
        by_cases hq : (classifyStatus tid).2 ∈ keysOf st.msgs
        · rw [if_pos hq] at hk ⊢
          rw [hk] at ht
          exact ⟨t, ht⟩
        · rw [if_neg hq] at hk ⊢
          rw [hk] at ht
          have hcongr :
              firstDedupAux (keysOf st.msgs ++ [(classifyStatus tid).2]) (headerIds ls)
                = firstDedupAux ((classifyStatus tid).2 :: keysOf st.msgs)
                    (headerIds ls) := by
            apply firstDedupAux_congr
            intro x
            simp only [List.mem_append, List.mem_cons, List.not_mem_nil,
              or_false]
            exact or_comm
          rw [hcongr] at ht
          refine ⟨t, ?_⟩
          rw [ht]
          simp


theorem filter_idem (p : α → Bool) (l : List α) :
    (l.filter p).filter p = l.filter p := by
  induction l with
  | nil => rfl
  | cons a l ih => by_cases h : p a <;> simp [List.filter_cons, h, ih]

theorem all_of_filter (p q : α → Bool) (l : List α) (h : l.all p = true) :
    (l.filter q).all p = true := by
  simp only [List.all_eq_true] at h ⊢
  exact fun a ha => h a (List.mem_of_mem_filter ha)

theorem reasonScan_eq (pattern : String) (gs : List Recipient) :
    reasonScan pattern gs =
      if gs.all (fun g => g.reason.isSome) then some (gs.any (reasonMatchB pattern))
      else none := by
  induction gs with
  | nil => rfl
  | cons g gs ih =>
    cases hr : g.reason with
    | none => simp [reasonScan, hr, Option.isSome_none]
    | some r =>
      cases hall : gs.all (fun g => g.reason.isSome) <;>
        simp [reasonScan, hr, ih, hall, reasonMatchB, Bool.or_comm]

theorem filter_on_msg_reason_eq (msgs : List (String × Msg)) (pattern : String) :
    filter_on_msg_reason msgs pattern =
      if msgs.all (fun p => recordReasonSafe p.2) then
        some (msgs.filter (fun p => reasonKeepB pattern p.2))
      else none := by
  induction msgs with
  | nil => rfl
  | cons p rest ih =>
    obtain ⟨qid, m⟩ := p
    by_cases hact : m.status = ST_ACTIVE
    · have hkeep : reasonKeepB pattern m = false := by simp [reasonKeepB, hact]
      have hsafe : recordReasonSafe m = true := by simp [recordReasonSafe, hact]
      cases hall : rest.all (fun p => recordReasonSafe p.2) <;>
        simp [filter_on_msg_reason, hact, ih, hall, hsafe, hkeep, List.filter_cons]
    · cases hrec : m.recipients with
      | none =>
        have hsafe : recordReasonSafe m = false := by simp [recordReasonSafe, hact, hrec]
        simp [filter_on_msg_reason, hact, hrec, hsafe]
      | some gs =>
        have hsafe : recordReasonSafe m = gs.all (fun g => g.reason.isSome) := by
          simp [recordReasonSafe, hact, hrec]
        have hkeep : reasonKeepB pattern m = gs.any (reasonMatchB pattern) := by
          simp [reasonKeepB, hact, hrec]
        cases hgall : gs.all (fun g => g.reason.isSome)
        · simp [filter_on_msg_reason, hact, hrec, reasonScan_eq, hgall, hsafe]
        · cases hall : rest.all (fun p => recordReasonSafe p.2) <;>
            cases hany : gs.any (reasonMatchB pattern) <;>
              simp [filter_on_msg_reason, hact, hrec, reasonScan_eq, hgall, hsafe,
                    hkeep, hall, hany, ih, List.filter_cons]

theorem filter_on_msg_recipient_eq (msgs : List (String × Msg)) (pattern : String) :
    filter_on_msg_recipient msgs pattern =
      if msgs.all (fun p => p.2.recipients.isSome) then
        some (msgs.filter (fun p => recipKeepB pattern p.2))
      else none := by
  induction msgs with
  | nil => rfl
  | cons p rest ih =>
    obtain ⟨qid, m⟩ := p
    cases hrec : m.recipients with
    | none => simp [filter_on_msg_recipient, hrec]
    | some gs =>
      have hkeep : recipKeepB pattern m
          = gs.any (fun g => g.addresses.any (fun a => reSearchCI pattern a)) := by
        simp [recipKeepB, hrec]
      cases hall : rest.all (fun p => p.2.recipients.isSome) <;>
        cases hany : gs.any (fun g => g.addresses.any (fun a => reSearchCI pattern a)) <;>
          simp [filter_on_msg_recipient, hrec, hall, hany, ih, hkeep, List.filter_cons]

theorem ageFilterGo_eq (f : Int → Bool) (msgs : List (String × Msg)) :
    ageFilterGo f msgs =
      if msgs.all (fun p => p.2.date.isSome) then
        some (msgs.filter (fun p => f (p.2.date.getD 0)))
      else none := by
  induction msgs with
  | nil => rfl
  | cons p rest ih =>
    obtain ⟨qid, m⟩ := p
    cases hd : m.date with
    | none => simp [ageFilterGo, hd]
    | some d =>
      cases hall : rest.all (fun p => p.2.date.isSome) <;>
        cases hf : f d <;>
          simp [ageFilterGo, hd, hall, hf, ih, List.filter_cons]

theorem filter_on_msg_age_eq (msgs : List (String × Msg)) (condition age : String)
    (now : PyDatetime) :
    filter_on_msg_age msgs condition age now =
      if condition = "minage" ∨ condition = "maxage" then
        match parseAgeSecs age with
        | none => none
        | some age_secs =>
          if msgs.all (fun p => p.2.date.isSome) then
            some (msgs.filter (fun p =>
              (if condition = "minage" then
                 fun d => decide (age_secs ≤ epochSeconds now - d)
               else fun d => decide (epochSeconds now - d ≤ age_secs))
                (p.2.date.getD 0)))
          else none
      else none := by
  unfold filter_on_msg_age
  split
  · cases hp : parseAgeSecs age with
    | none => rfl
    | some a => exact ageFilterGo_eq _ _
  · rfl

/-- Claim C6, counterexample: the reason filter does not simply discard a
non-matching record — on a non-active record one of whose groups carries no
reason key (produced by an empty parenthetical), `recipient["reason"]`
raises KeyError and the filter crashes instead of returning a collection. -/
theorem C6_counterexample :
    filter_on_msg_reason
      [("Q1", ⟨"100", "Tue Jan 3 12:03:31", "a@b", ST_DEFER,
               some [⟨["r@y"], none⟩], none⟩)] "timed" = none := rfl

/-- Claim C6 as amended: on collections where every non-active record has
its recipients key and all its groups carry a reason, the reason filter
succeeds and keeps exactly the records that are non-active and have some
group with a non-empty reason matched case-insensitively as a substring
(records kept unchanged); a non-active record with a reason-less group
makes the filter crash instead. -/
theorem C6_amended (msgs : List (String × Msg)) (pattern : String)
    (hsafe : msgs.all (fun p => recordReasonSafe p.2) = true) :
    filter_on_msg_reason msgs pattern
      = some (msgs.filter (fun p => reasonKeepB pattern p.2))
    ∧ ∀ e : String × Msg,
        e ∈ msgs.filter (fun p => reasonKeepB pattern p.2) ↔
          (e ∈ msgs ∧ e.2.status ≠ ST_ACTIVE
           ∧ ∃ gs, e.2.recipients = some gs
             ∧ ∃ g ∈ gs, ∃ r, g.reason = some r ∧ r ≠ ""
               ∧ reSearchCI pattern r = true) := by
  constructor
  · rw [filter_on_msg_reason_eq, if_pos hsafe]
  · intro e
    rw [List.mem_filter]
    constructor
    · rintro ⟨hmem, hkeep⟩
      refine ⟨hmem, ?_⟩
      simp only [reasonKeepB, Bool.and_eq_true, decide_eq_true_eq] at hkeep
      obtain ⟨hact, hrest⟩ := hkeep
      refine ⟨hact, ?_⟩
      cases hrec : e.2.recipients with
      | none => rw [hrec] at hrest; exact absurd hrest (by simp)
      | some gs =>
        rw [hrec] at hrest
        simp only [List.any_eq_true] at hrest
        obtain ⟨g, hg, hmatch⟩ := hrest
        cases hr : g.reason with
        | none => rw [reasonMatchB, hr] at hmatch; exact absurd hmatch (by simp)
        | some r =>
          rw [reasonMatchB, hr] at hmatch
          simp only [Bool.and_eq_true, decide_eq_true_eq] at hmatch
          exact ⟨gs, rfl, g, hg, r, hr, hmatch.1, hmatch.2⟩
    · rintro ⟨hmem, hact, gs, hgs, g, hg, r, hr, hne, hsearch⟩
      refine ⟨hmem, ?_⟩
      simp only [reasonKeepB, hgs, Bool.and_eq_true, decide_eq_true_eq,
        List.any_eq_true]
      exact ⟨hact, g, hg, by simp [reasonMatchB, hr, hne, hsearch]⟩

theorem C6_witness :
    filter_on_msg_reason
      [("Q1", ⟨"100", "Tue Jan 3 12:03:31", "a@b", ST_DEFER,
               some [⟨["r@y"], some "connection timed out"⟩], none⟩),
       ("Q2", ⟨"100", "Tue Jan 3 12:03:31", "a@b", ST_ACTIVE,
               some [⟨["z@w"], none⟩], none⟩)] "TIMED"
      = some ([("Q1", ⟨"100", "Tue Jan 3 12:03:31", "a@b", ST_DEFER,
                 some [⟨["r@y"], some "connection timed out"⟩], none⟩),
               ("Q2", ⟨"100", "Tue Jan 3 12:03:31", "a@b", ST_ACTIVE,
                 some [⟨["z@w"], none⟩], none⟩)].filter
           (fun p => reasonKeepB "TIMED" p.2)) :=
  (C6_amended
    [("Q1", ⟨"100", "Tue Jan 3 12:03:31", "a@b", ST_DEFER,
             some [⟨["r@y"], some "connection timed out"⟩], none⟩),
     ("Q2", ⟨"100", "Tue Jan 3 12:03:31", "a@b", ST_ACTIVE,
             some [⟨["z@w"], none⟩], none⟩)] "TIMED" rfl).1

/-- Claim C8: every filter of the pipeline is idempotent at fixed
parameters — applying it twice (crash propagated through `bind`) equals
applying it once. -/
theorem C8_filters_idempotent :
    (∀ (msgs : List (String × Msg)) (pattern : String) (key : Msg → Option String),
      filter_on_msg_key (filter_on_msg_key msgs pattern key) pattern key
        = filter_on_msg_key msgs pattern key)
    ∧ (∀ (msgs : List (String × Msg)) (pattern : String),
        (filter_on_msg_reason msgs pattern).bind
            (fun r => filter_on_msg_reason r pattern)
          = filter_on_msg_reason msgs pattern)
    ∧ (∀ (msgs : List (String × Msg)) (pattern : String),
        (filter_on_msg_recipient msgs pattern).bind
            (fun r => filter_on_msg_recipient r pattern)
          = filter_on_msg_recipient msgs pattern)
    ∧ (∀ (msgs : List (String × Msg)) (condition age : String) (now : PyDatetime),
        (filter_on_msg_age msgs condition age now).bind
            (fun r => filter_on_msg_age r condition age now)
          = filter_on_msg_age msgs condition age now)
    ∧ (∀ msgs : List (String × Msg),
        filter_exclude_active (filter_exclude_active msgs) = filter_exclude_active msgs)
    ∧ (∀ msgs : List (String × Msg),
        filter_only_active (filter_only_active msgs) = filter_only_active msgs) := by
  refine ⟨?_, ?_, ?_, ?_, ?_, ?_⟩
  · intro msgs pattern key
    exact filter_idem _ msgs
  · intro msgs pattern
    rw [filter_on_msg_reason_eq msgs]
    cases hall : msgs.all (fun p => recordReasonSafe p.2)
    · rfl
    · rw [if_pos rfl, Option.some_bind]
      rw [filter_on_msg_reason_eq, all_of_filter _ _ _ hall, if_pos rfl, filter_idem]
  · intro msgs pattern
    rw [filter_on_msg_recipient_eq msgs]
    cases hall : msgs.all (fun p => p.2.recipients.isSome)
    · rfl
    · rw [if_pos rfl, Option.some_bind]
      rw [filter_on_msg_recipient_eq, all_of_filter _ _ _ hall, if_pos rfl, filter_idem]
  · intro msgs condition age now
    rw [filter_on_msg_age_eq msgs]
    by_cases hc : condition = "minage" ∨ condition = "maxage"
    · rw [if_pos hc]
      cases hp : parseAgeSecs age with
      | none => rfl
      | some a =>
        dsimp only
        cases hall : msgs.all (fun p => p.2.date.isSome)
        · rfl
        · rw [if_pos rfl, Option.some_bind]
          rw [filter_on_msg_age_eq, if_pos hc, hp]
          dsimp only
          rw [all_of_filter _ _ _ hall, if_pos rfl, filter_idem]
    · rw [if_neg hc]
      rfl
  · intro msgs
    exact filter_idem _ msgs
  · intro msgs
    exact filter_idem _ msgs

theorem normAge_cases (v : Option String) :
    normAge v = .error .uncaughtTypeError ∨ ∃ r, normAge v = .ok r := by
  unfold normAge
  cases v with
  | none => exact .inr ⟨none, rfl⟩
  | some a =>
    dsimp only
    split
    · exact .inr ⟨_, rfl⟩
    · split
      · exact .inl rfl
      · exact .inr ⟨_, rfl⟩

theorem parse_args_check_both (args : Args)
    (hx : args.exclude_active = true) (ho : args.only_active = true) :
    parse_args_check args = .error .uncaughtTypeError := by
  unfold parse_args_check
  rcases normAge_cases args.minage with h | ⟨r, h⟩ <;>
    rcases normAge_cases args.maxage with h' | ⟨r', h'⟩ <;>
      simp only [h, h', hx, ho] <;> rfl

theorem flattenGroups_eq_spec (gs : List Recipient)
    (h : ∀ g ∈ gs, g.reason.isSome = true) :
    flattenGroups gs = some (flattenSpec gs) := by
  induction gs with
  | nil => rfl
  | cons g gs ih =>
    have hg : g.reason.isSome = true := h g (by simp)
    obtain ⟨r, hr⟩ := Option.isSome_iff_exists.mp hg
    have ih' := ih (fun g' hg' => h g' (by simp [hg']))
    simp [flattenGroups, hr, ih', flattenSpec]

theorem flattenSpec_length (gs : List Recipient) :
    (flattenSpec gs).length = (gs.map (fun g => g.addresses.length)).sum := by
  induction gs with
  | nil => rfl
  | cons g gs ih => simp [flattenSpec] at ih ⊢; omega

/-! ## Claims -/

/-- Claim C1 (code bug witnessed on the code): when a record-header line
arrives while the parser is collecting recipients, the source saves
`msg["recipients"] = recipients` WITHOUT first appending the pending
reason/addresses, so the pending group is silently dropped.  Evaluated at a
concrete input: the first (active) record has collected the address `r@y`,
yet its stored recipient list is empty, while `_append_recipients` applied
to the pending data would have produced a non-empty group. -/
theorem C1_hex_line_drops_pending_group :
    parse_mq ["A1* 100 Thu Jan 5 10:00:00 s@x", "r@y",
              "B2 100 Thu Jan 5 10:00:00 s@x"]
      = .ok [("A1", ⟨"100", "Thu Jan 5 10:00:00", "s@x", ST_ACTIVE, some [], none⟩),
             ("B2", ⟨"100", "Thu Jan 5 10:00:00", "s@x", ST_DEFER, none, none⟩)]
    ∧ append_recipients none ["r@y"] [] = [⟨["r@y"], none⟩] :=
  ⟨rfl, rfl⟩

/-- Claim C2, counterexample: end of input while still in state `Header`
is NOT a fatal parse error — the empty input parses successfully to the
empty collection — and the single-active-header scenario yields a record
whose `recipients` key was never assigned (`none`), not an empty list. -/
theorem C2_counterexample :
    parse_mq [] = .ok []
    ∧ parse_mq ["ABC123* 1024 Jan 5 10:00:00 user@example.com"]
        = .ok [("ABC123", ⟨"1024", "Jan 5 10:00:00 user@example.com",
                           "user@example.com", ST_ACTIVE, none, none⟩)]
    ∧ (none : Option (List Recipient)) ≠ some [] :=
  ⟨rfl, rfl, by simp⟩

/-- Claim C2 as amended: end of input in ANY state (including
`CollectingRecipients`, `ExpectReason` and `Header`) ends the parse
successfully with the collection as is — the last open recipient group is
NOT flushed; a single active header line yields one active record with
sender `user@example.com` whose `recipients` key is absent. -/
theorem C2_amended :
    (∀ st : ParseSt, parseLines [] st = .ok st.msgs)
    ∧ parse_mq ["ABC123* 1024 Jan 5 10:00:00 user@example.com"]
        = .ok [("ABC123", ⟨"1024", "Jan 5 10:00:00 user@example.com",
                           "user@example.com", ST_ACTIVE, none, none⟩)] :=
  ⟨fun _ => rfl, rfl⟩

/-- Every non-empty list of characters has a last element. -/
theorem getLast?_cons_exists (a : Char) (l : List Char) :
    ∃ c, (a :: l).getLast? = some c := by
  induction l generalizing a with
  | nil => exact ⟨a, rfl⟩
  | cons b t ih =>
    obtain ⟨c, hc⟩ := ih b
    exact ⟨c, by rw [List.getLast?_cons_cons, hc]⟩

/-- Claim C3: a record's status is one of active/held/deferred; it is
active iff the raw identifier token ends in `*`, held iff it ends in `|`,
deferred otherwise; the marker is stripped from the stored queue id when
present, and the id kept verbatim otherwise.  Every record of a successful
parse carries one of the three statuses. -/
theorem C3_status_classification :
    (∀ tid : String, tid ≠ "" →
      ((classifyStatus tid).1 = ST_ACTIVE ↔ lastChar? tid = some '*')
      ∧ ((classifyStatus tid).1 = ST_HELD ↔ lastChar? tid = some '|')
      ∧ ((classifyStatus tid).1 = ST_DEFER ↔
          (lastChar? tid ≠ some '*' ∧ lastChar? tid ≠ some '|'))
      ∧ ((lastChar? tid = some '*' ∨ lastChar? tid = some '|') →
          (classifyStatus tid).2 = strDropLast tid)
      ∧ ((lastChar? tid ≠ some '*' ∧ lastChar? tid ≠ some '|') →
          (classifyStatus tid).2 = tid))
    ∧ (∀ (lines : List String) (out : List (String × Msg)),
        parse_mq lines = .ok out → ∀ p ∈ out, statusOK p.2) := by
  constructor
  · intro tid htid
    obtain ⟨c, hc⟩ : ∃ c, lastChar? tid = some c := by
      obtain ⟨data⟩ := tid
      cases data with
      | nil => exact absurd rfl htid
      | cons a as => exact getLast?_cons_exists a as
    by_cases h1 : c = '*'
    · subst h1
      simp [classifyStatus, hc, ST_ACTIVE, ST_HELD, ST_DEFER]
    · by_cases h2 : c = '|'
      · subst h2
        simp [classifyStatus, hc, h1, ST_ACTIVE, ST_HELD, ST_DEFER]
      · simp [classifyStatus, hc, h1, h2, ST_ACTIVE, ST_HELD, ST_DEFER]
  · intro lines out h p hp
    refine parseLines_status lines initSt out h ?_ p hp
    intro q hq
    simp [initSt] at hq

theorem C3_witness :
    (((classifyStatus "A705238B4C*").1 = ST_ACTIVE
        ↔ lastChar? "A705238B4C*" = some '*')
      ∧ ((classifyStatus "A705238B4C*").1 = ST_HELD
          ↔ lastChar? "A705238B4C*" = some '|')
      ∧ ((classifyStatus "A705238B4C*").1 = ST_DEFER ↔
          (lastChar? "A705238B4C*" ≠ some '*' ∧ lastChar? "A705238B4C*" ≠ some '|'))
      ∧ ((lastChar? "A705238B4C*" = some '*' ∨ lastChar? "A705238B4C*" = some '|') →
          (classifyStatus "A705238B4C*").2 = strDropLast "A705238B4C*")
      ∧ ((lastChar? "A705238B4C*" ≠ some '*' ∧ lastChar? "A705238B4C*" ≠ some '|') →
          (classifyStatus "A705238B4C*").2 = "A705238B4C*"))
    ∧ (∀ p ∈ [("B2", (⟨"100", "Thu Jan 5 10:00:00", "s@x",
          ST_DEFER, none, none⟩ : Msg))], statusOK p.2) :=
  ⟨C3_status_classification.1 "A705238B4C*" (by decide),
   C3_status_classification.2 ["B2 100 Thu Jan 5 10:00:00 s@x"] _ rfl⟩

/-- Claim C7: a successful parse lists records in the order their header
lines first appear in the input (its key sequence is an initial segment of
the first-occurrence ids of the header lines), and every filter of the
pipeline returns a sublist of its input, so any chain of filters preserves
the input-order restriction to the kept records. -/
theorem C7_order :
    (∀ (lines : List String) (out : List (String × Msg)),
      parse_mq lines = .ok out →
      ∃ t, keysOf out ++ t = firstDedup (headerIds lines))
    ∧ (∀ (msgs : List (String × Msg)) (pattern : String) (key : Msg → Option String),
        List.Sublist (filter_on_msg_key msgs pattern key) msgs)
    ∧ (∀ (msgs : List (String × Msg)) (pattern : String) (out : List (String × Msg)),
        filter_on_msg_reason msgs pattern = some out → List.Sublist out msgs)
    ∧ (∀ (msgs : List (String × Msg)) (pattern : String) (out : List (String × Msg)),
        filter_on_msg_recipient msgs pattern = some out → List.Sublist out msgs)
    ∧ (∀ (msgs : List (String × Msg)) (condition age : String) (now : PyDatetime)
        (out : List (String × Msg)),
        filter_on_msg_age msgs condition age now = some out → List.Sublist out msgs)
    ∧ (∀ msgs : List (String × Msg), List.Sublist (filter_exclude_active msgs) msgs)
    ∧ (∀ msgs : List (String × Msg), List.Sublist (filter_only_active msgs) msgs) := by
  refine ⟨?_, ?_, ?_, ?_, ?_, ?_, ?_⟩
  · intro lines out h
    exact parseLines_keys lines initSt out h (fun _ => rfl)
  · intro msgs pattern key
    exact List.filter_sublist msgs
  · intro msgs pattern out h
    rw [filter_on_msg_reason_eq] at h
    split at h
    · cases h
      exact List.filter_sublist msgs
    · simp at h
  · intro msgs pattern out h
    rw [filter_on_msg_recipient_eq] at h
    split at h
    · cases h
      exact List.filter_sublist msgs
    · simp at h
  · intro msgs condition age now out h
    rw [filter_on_msg_age_eq] at h
    split at h
    · split at h
      · simp at h
      · split at h
        · cases h
          exact List.filter_sublist msgs
        · simp at h
    · simp at h
  · intro msgs
    exact List.filter_sublist msgs
  · intro msgs
    exact List.filter_sublist msgs

theorem C7_witness :
    (∃ t, keysOf [("C3", (⟨"7", "Thu Jan 5 10:00:00", "s@x",
        ST_ACTIVE, none, none⟩ : Msg))] ++ t
      = firstDedup (headerIds ["C3* 7 Thu Jan 5 10:00:00 s@x"]))
    ∧ List.Sublist ([] : List (String × Msg)) ([] : List (String × Msg))
    ∧ List.Sublist ([] : List (String × Msg)) ([] : List (String × Msg))
    ∧ List.Sublist ([] : List (String × Msg)) ([] : List (String × Msg)) :=
  ⟨C7_order.1 ["C3* 7 Thu Jan 5 10:00:00 s@x"] _ rfl,
   C7_order.2.2.1 [] "x" [] rfl,
   C7_order.2.2.2.1 [] "x" [] rfl,
   C7_order.2.2.2.2.1 [] "minage" "1h" ⟨1970, 1, 1, 0, 0, 0⟩ [] rfl⟩

/-- Claim C4: `parse_mailq_date` builds the candidate datetime from `now`'s
year and rolls back exactly one year exactly when the candidate is strictly
after `now`; on the year-boundary scenario (`Dec 31 23:59:59` seen at
`Jan 1 00:00:10` of 2026) the result falls in 2025, epoch second
1767225599. -/
theorem C4_year_rollback (d : String) (now : PyDatetime)
    (w mon day t th tm tsec : String) (monN dayN hN miN sN : Nat)
    (hsplit : pySplit d = [w, mon, day, t])
    (htime : splitChar ':' t = [th, tm, tsec])
    (hmon : MONTH_MAP mon = some monN)
    (hday : pyToNat day = some dayN)
    (hth : pyToNat th = some hN)
    (htm : pyToNat tm = some miN)
    (hts : pyToNat tsec = some sN) :
    parse_mailq_date d now =
      some (epochSeconds
        (if dtGt ⟨now.year, monN, dayN, hN, miN, sN⟩ now
         then ⟨now.year - 1, monN, dayN, hN, miN, sN⟩
         else ⟨now.year, monN, dayN, hN, miN, sN⟩))
    ∧ parse_mailq_date "Fri Dec 31 23:59:59" ⟨2026, 1, 1, 0, 0, 10⟩
        = some (epochSeconds ⟨2025, 12, 31, 23, 59, 59⟩)
    ∧ epochSeconds ⟨2025, 12, 31, 23, 59, 59⟩ = 1767225599 := by
  refine ⟨?_, rfl, rfl⟩
  simp [parse_mailq_date, hsplit, htime, hmon, hday, hth, htm, hts]

theorem C4_witness :
    parse_mailq_date "Fri Dec 31 23:59:59" ⟨2026, 1, 1, 0, 0, 10⟩ =
      some (epochSeconds
        (if dtGt ⟨2026, 12, 31, 23, 59, 59⟩ ⟨2026, 1, 1, 0, 0, 10⟩
         then ⟨2025, 12, 31, 23, 59, 59⟩
         else ⟨2026, 12, 31, 23, 59, 59⟩)) :=
  (C4_year_rollback "Fri Dec 31 23:59:59" ⟨2026, 1, 1, 0, 0, 10⟩
    "Fri" "Dec" "31" "23:59:59" "23" "59" "59" 12 31 23 59 59
    rfl rfl rfl rfl rfl rfl rfl).1

/-- Claim C5, counterexample: the legacy transform does NOT emit a
flattened object for every record — on a record whose (parser-produced)
recipient group carries no reason key, `recipient["reason"]` raises
KeyError and nothing is emitted. -/
theorem C5_counterexample :
    convert_to_postfix31 "E2CD"
      ⟨"4096", "Tue Jan 3 12:05:00", "from2@example.com", ST_ACTIVE,
       some [⟨["to3@example.org"], none⟩], none⟩
      ⟨2026, 1, 10, 0, 0, 0⟩ = none := rfl

/-- Claim C5 as amended: for every record whose raw date resolves, whose
`recipients` key is present and whose every group carries a reason, the
legacy transform emits one flattened object with `queue_name` the record's
status, the queue id, the integer arrival time, the size, the sender, and
the reason-by-address cross product (one entry per address of each group);
the deferred scenario with one reason and two addresses yields exactly its
two entries. -/
theorem C5_amended :
    (∀ (qid : String) (m : Msg) (now : PyDatetime) (arrival : Int)
        (gs : List Recipient),
      parse_mailq_date m.rawdate now = some arrival →
      m.recipients = some gs →
      (∀ g ∈ gs, g.reason.isSome = true) →
      convert_to_postfix31 qid m now
        = some ⟨m.status, qid, arrival, m.size, m.sender, flattenSpec gs⟩
      ∧ (flattenSpec gs).length = (gs.map (fun g => g.addresses.length)).sum)
    ∧ convert_to_postfix31 "D1AB"
        ⟨"2232", "Tue Jan 3 12:03:31", "from@example.com", ST_DEFER,
         some [⟨["to1@example.net", "to2@example.net"], some "connection timed out"⟩], none⟩
        ⟨2026, 1, 10, 0, 0, 0⟩
      = some ⟨ST_DEFER, "D1AB", 1767441811, "2232", "from@example.com",
              [⟨"connection timed out", "to1@example.net"⟩,
               ⟨"connection timed out", "to2@example.net"⟩]⟩ := by
  refine ⟨fun qid m now arrival gs hdate hrec hall => ⟨?_, flattenSpec_length gs⟩, rfl⟩
  simp [convert_to_postfix31, hdate, hrec, flattenGroups_eq_spec gs hall]

theorem C5_witness :
    convert_to_postfix31 "Q1"
      ⟨"100", "Tue Jan 3 12:03:31", "a@b", ST_DEFER,
       some [⟨["r@y"], some "connection timed out"⟩], none⟩
      ⟨2026, 1, 10, 0, 0, 0⟩
      = some ⟨ST_DEFER, "Q1", 1767441811, "100", "a@b",
              flattenSpec [⟨["r@y"], some "connection timed out"⟩]⟩ :=
  (C5_amended.1 "Q1"
    ⟨"100", "Tue Jan 3 12:03:31", "a@b", ST_DEFER,
     some [⟨["r@y"], some "connection timed out"⟩], none⟩
    ⟨2026, 1, 10, 0, 0, 0⟩ 1767441811
    [⟨["r@y"], some "connection timed out"⟩]
    rfl rfl (by simp)).1

/-- Claim C9 (code bug witnessed on the code): with both `--exclude-active`
and `--only-active` set, the run aborts with non-zero status before any
parsing (the result does not depend on the input at all) — but the abort is
an uncaught `TypeError` from the Python-2 `print >> sys.stderr` statement,
not the intended configuration-error report. -/
theorem C9_mutually_exclusive_flags (args : Args) (input : List String)
    (now : PyDatetime)
    (hx : args.exclude_active = true) (ho : args.only_active = true) :
    main args input now = .error .uncaughtTypeError
    ∧ exitCode .uncaughtTypeError ≠ 0
    ∧ ∀ input', main args input now = main args input' now := by
  have hpa := parse_args_check_both args hx ho
  refine ⟨?_, by simp [exitCode], ?_⟩
  · unfold main
    rw [hpa]
    rfl
  · intro input'
    unfold main
    rw [hpa]
    rfl

theorem C9_witness :
    main { exclude_active := true, only_active := true } ["Z9 1 Tue Jan 3 12:03:31 a@b"]
      ⟨2026, 1, 1, 0, 0, 0⟩ = .error .uncaughtTypeError :=
  (C9_mutually_exclusive_flags { exclude_active := true, only_active := true }
    ["Z9 1 Tue Jan 3 12:03:31 a@b"] ⟨2026, 1, 1, 0, 0, 0⟩ rfl rfl).1

/-- Claim C10: on a header line that splits into at least six tokens, the
field extraction of the record-header branch is total and stores size =
token 1, rawdate = tokens 2..5 joined by single spaces, sender = last
token. -/
theorem C10_header_extraction (line : String) (ts : List String)
    (hhex : isHexStart line = true)
    (hsplit : pySplit line = ts) (hlen : 6 ≤ ts.length) :
    ∃ qid m, parseHeaderLine line = .ok (qid, m)
      ∧ m.size = ts.getD 1 ""
      ∧ m.rawdate = joinSpaces ((ts.drop 2).take 4)
      ∧ m.sender = (ts.getLast?).getD "" := by
  match ts, hlen with
  | t0 :: t1 :: rest, _ =>
    refine ⟨(classifyStatus t0).2,
      { size := t1, rawdate := joinSpaces (((t0 :: t1 :: rest).drop 2).take 4),
        sender := ((t0 :: t1 :: rest).getLast?).getD "",
        status := (classifyStatus t0).1, recipients := none, date := none },
      ?_, by simp, by simp, by simp⟩
    simp [parseHeaderLine, hsplit]

theorem C10_witness :
    ∃ qid m,
      parseHeaderLine "A705238B4C 2232 Tue Jan 3 12:03:31 sender@example.com"
        = .ok (qid, m)
      ∧ m.size = (["A705238B4C", "2232", "Tue", "Jan", "3", "12:03:31",
           "sender@example.com"] : List String).getD 1 ""
      ∧ m.rawdate = joinSpaces (((["A705238B4C", "2232", "Tue", "Jan", "3",
           "12:03:31", "sender@example.com"] : List String).drop 2).take 4)
      ∧ m.sender = ((["A705238B4C", "2232", "Tue", "Jan", "3", "12:03:31",
           "sender@example.com"] : List String).getLast?).getD "" :=
  C10_header_extraction "A705238B4C 2232 Tue Jan 3 12:03:31 sender@example.com"
    ["A705238B4C", "2232", "Tue", "Jan", "3", "12:03:31", "sender@example.com"]
    rfl rfl (by simp)

end Apq
